import Mathlib

/-!
Verification of the acquisition-function ("infill") layer of SBArchOpt
(`sb_arch_opt/algo/arch_sbo/infill.py`), shallowly embedded in Lean 4.

Numeric model: the Python code computes with IEEE-754 doubles under numpy
semantics.  We model values exactly as rationals extended with the three
special values `+inf`, `-inf` and `nan` (type `RF`), with arithmetic and
comparison operations mirroring numpy's float semantics (comparisons with
`nan` are false, `0 * inf = nan`, `x / 0` is a signed infinity or `nan`, ...).
External transcendental library functions (`scipy.stats.norm.cdf`,
`scipy.stats.norm.pdf`, `scipy.special.ndtr`, `numpy.sqrt` on rationals) are
modelled as oracle parameters (`NumOracle`): the theorems quantify over the
oracle, adding only the hypotheses about it that a claim needs (e.g.
`cdf(+inf) = 1`).  `norm.cdf` and `ndtr` are the same mathematical function
(the standard normal CDF), so both are modelled by the single `cdf` field.

Matrices are lists of rows; training outcomes (`y_train`) are matrices of
plain rationals (actually evaluated, finite outcomes), surrogate predictions
are `RF` matrices (they may be NaN, see `SurrogateInfill.predict`).
-/

/-- Extended rational value mirroring an IEEE-754 double: a finite rational,
`+inf`, `-inf` or `nan`. -/
inductive RF where
  | fin : ℚ → RF
  | pinf : RF
  | ninf : RF
  | nan : RF
deriving DecidableEq, Repr

namespace RF

/-- Negation, numpy semantics. -/
def neg : RF → RF
  | fin q => fin (-q)
  | pinf => ninf
  | ninf => pinf
  | nan => nan

/-- Addition, numpy semantics (`inf + -inf = nan`). -/
def add : RF → RF → RF
  | nan, _ => nan
  | _, nan => nan
  | fin a, fin b => fin (a + b)
  | fin _, pinf => pinf
  | fin _, ninf => ninf
  | pinf, fin _ => pinf
  | ninf, fin _ => ninf
  | pinf, pinf => pinf
  | ninf, ninf => ninf
  | pinf, ninf => nan
  | ninf, pinf => nan

/-- Subtraction, numpy semantics. -/
def sub (a b : RF) : RF := add a (neg b)

/-- Multiplication, numpy semantics (`0 * inf = nan`). -/
def mul : RF → RF → RF
  | nan, _ => nan
  | _, nan => nan
  | fin a, fin b => fin (a * b)
  | fin a, pinf => if 0 < a then pinf else if a < 0 then ninf else nan
  | fin a, ninf => if 0 < a then ninf else if a < 0 then pinf else nan
  | pinf, fin a => if 0 < a then pinf else if a < 0 then ninf else nan
  | ninf, fin a => if 0 < a then ninf else if a < 0 then pinf else nan
  | pinf, pinf => pinf
  | pinf, ninf => ninf
  | ninf, pinf => ninf
  | ninf, ninf => pinf

/-- Division, numpy semantics (`x / 0` is a signed infinity for `x ≠ 0`,
`0 / 0 = nan`, `x / inf = 0`; the rational `0` plays the role of `+0`). -/
def div : RF → RF → RF
  | nan, _ => nan
  | _, nan => nan
  | fin a, fin b =>
      if b = 0 then (if 0 < a then pinf else if a < 0 then ninf else nan)
      else fin (a / b)
  | fin _, pinf => fin 0
  | fin _, ninf => fin 0
  | pinf, fin b => if 0 ≤ b then pinf else ninf
  | ninf, fin b => if 0 ≤ b then ninf else pinf
  | pinf, pinf => nan
  | pinf, ninf => nan
  | ninf, pinf => nan
  | ninf, ninf => nan

/-- Boolean `≤`, numpy semantics: any comparison involving `nan` is false. -/
def leb : RF → RF → Bool
  | nan, _ => false
  | _, nan => false
  | fin a, fin b => decide (a ≤ b)
  | fin _, pinf => true
  | pinf, fin _ => false
  | ninf, fin _ => true
  | fin _, ninf => false
  | pinf, pinf => true
  | ninf, ninf => true
  | ninf, pinf => true
  | pinf, ninf => false

/-- Boolean `<`, numpy semantics: any comparison involving `nan` is false. -/
def ltb : RF → RF → Bool
  | nan, _ => false
  | _, nan => false
  | fin a, fin b => decide (a < b)
  | fin _, pinf => true
  | pinf, fin _ => false
  | ninf, fin _ => true
  | fin _, ninf => false
  | pinf, pinf => false
  | ninf, ninf => false
  | ninf, pinf => true
  | pinf, ninf => false

instance : Add RF := ⟨RF.add⟩
instance : Sub RF := ⟨RF.sub⟩
instance : Mul RF := ⟨RF.mul⟩
instance : Div RF := ⟨RF.div⟩
instance : Neg RF := ⟨RF.neg⟩

/-- `numpy.minimum`-style pairwise minimum: propagates `nan` (as `np.min`
does when reducing an array). -/
def minRF (a b : RF) : RF :=
  if a = nan ∨ b = nan then nan else if leb a b then a else b

end RF

/-- A row of predicted values. -/
abbrev RFRow : Type := List RF
/-- A matrix of predicted values (list of rows), as a numpy 2-d float array. -/
abbrev RFMat : Type := List (List RF)
/-- A row of exact (finite) values, used for training outcomes `y_train`. -/
abbrev QRow : Type := List ℚ

/-- Oracle for the external numeric library functions used by the module:
`scipy.stats.norm.cdf` / `scipy.special.ndtr` (the standard normal CDF),
`scipy.stats.norm.pdf`, and the value of `numpy.sqrt` on non-negative
rationals. -/
structure NumOracle where
  cdf : RF → RF
  pdf : RF → RF
  sqrtQ : ℚ → ℚ

/-- `numpy.sqrt` on our value model: negative finite inputs and `-inf` give
`nan`; the finite non-negative value is supplied by the oracle. -/
def sqrtRF (sq : ℚ → ℚ) : RF → RF
  | RF.fin q => if q < 0 then RF.nan else RF.fin (sq q)
  | RF.pinf => RF.pinf
  | RF.ninf => RF.nan
  | RF.nan => RF.nan

/-! ## Pareto front (`SurrogateInfill.get_pareto_front`, infill.py:166-170)

`NonDominatedSorting().do(f, only_non_dominated_front=True)` keeps exactly
the rows not dominated by any other row, where row `a` dominates row `b`
iff `a` is `≤` componentwise and `<` in at least one component. -/

/-- Pareto domination between outcome rows (pymoo's `Dominator` relation). -/
def dominates (a b : QRow) : Bool :=
  (List.zipWith (fun x y => decide (x ≤ y)) a b).all id &&
  (List.zipWith (fun x y => decide (x < y)) a b).any id

/-- `SurrogateInfill.get_pareto_front`: the non-dominated subset of the rows
of `f` (infill.py:166-170). -/
def get_pareto_front (f : List QRow) : List QRow :=
  f.filter (fun r => ! f.any (fun s => dominates s r))

/-- Columnwise maximum of a matrix (`np.max(f_pareto, axis=0)`). -/
def colMax : List QRow → QRow
  | [] => []
  | r :: rs => rs.foldl (fun acc s => List.zipWith max acc s) r

/-- Columnwise minimum of a matrix (`np.min(f_pareto, axis=0)`). -/
def colMin : List QRow → QRow
  | [] => []
  | r :: rs => rs.foldl (fun acc s => List.zipWith min acc s) r

/-! ## Normalization step of EI / PoI
(`ExpectedImprovementInfill._evaluate_f_ei`, infill.py:360-366, and the
textually identical `ProbabilityOfImprovementInfill._evaluate_f_poi`,
infill.py:465-471.)

```
nadir_point, ideal_point = np.max(f_pareto, axis=0), np.min(f_pareto, axis=0)
nadir_point[nadir_point == ideal_point] = 1.
f_pareto_norm = (f_pareto-ideal_point)/(nadir_point-ideal_point)
```#-/

/-- The masked assignment `nadir_point[nadir_point == ideal_point] = 1.`
(infill.py:364 and infill.py:469). -/
def nadirMasked (nadir ideal : QRow) : QRow :=
  List.zipWith (fun n i => if n = i then 1 else n) nadir ideal

/-- The per-column normalization denominator `nadir_point - ideal_point`
actually used by `_evaluate_f_ei` / `_evaluate_f_poi` after the masked
assignment of infill.py:364 / infill.py:469. -/
def normDenominator (fCurrent : List QRow) : QRow :=
  let fp := get_pareto_front fCurrent
  let nadir := nadirMasked (colMax fp) (colMin fp)
  List.zipWith (fun n i => n - i) nadir (colMin fp)

/-! # C1 -/

/-- C1, counterexample.  The claim states that whenever a Pareto-front
column has `nadir == ideal`, the normalization denominator used for that
column equals 1.  For the training front `[[5]]` (a single point, so
`nadir = ideal = 5`) the code replaces the *nadir* by 1, giving denominator
`1 - 5 = -4 ≠ 1`; and for the front `[[1]]` the denominator is `1 - 1 = 0`,
so the normalization can in fact still divide by zero. -/
theorem C1_counterexample :
    colMax (get_pareto_front [[(5 : ℚ)]]) = colMin (get_pareto_front [[(5 : ℚ)]]) ∧
    normDenominator [[(5 : ℚ)]] = [(-4 : ℚ)] ∧
    normDenominator [[(5 : ℚ)]] ≠ [(1 : ℚ)] ∧
    normDenominator [[(1 : ℚ)]] = [(0 : ℚ)] := by
  refine ⟨?_, ?_, ?_, ?_⟩ <;>
    norm_num [normDenominator, get_pareto_front, dominates, colMax, colMin, nadirMasked]

/-- C1, amended.  In the normalization step of `_evaluate_f_ei` and
`_evaluate_f_poi`, for every objective column of the training-set Pareto
front where the nadir value equals the ideal value, the *nadir* is replaced
by 1, so the normalization denominator for that column equals `1 - ideal`
(which is 1 exactly when the ideal value is 0, and is 0 — a division by
zero — when the ideal value is 1). -/
theorem C1_denominator_amended (fCurrent : List QRow) (j : ℕ)
    (hn : j < (colMax (get_pareto_front fCurrent)).length)
    (hi : j < (colMin (get_pareto_front fCurrent)).length)
    (heq : (colMax (get_pareto_front fCurrent)).getD j 0 =
           (colMin (get_pareto_front fCurrent)).getD j 0) :
    (normDenominator fCurrent).getD j 0 =
      1 - (colMin (get_pareto_front fCurrent)).getD j 0 := by
  unfold normDenominator nadirMasked
  set nad := colMax (get_pareto_front fCurrent) with hnad
  set idl := colMin (get_pareto_front fCurrent) with hidl
  have hlen1 : j < (List.zipWith (fun n i => if n = i then 1 else n) nad idl).length := by
    rw [List.length_zipWith]; omega
  have hlen2 : j < (List.zipWith (fun n i => n - i)
      (List.zipWith (fun n i => if n = i then 1 else n) nad idl) idl).length := by
    rw [List.length_zipWith, List.length_zipWith]; omega
  rw [List.getD_eq_getElem _ _ hlen2, List.getElem_zipWith,
    List.getElem_zipWith]
  rw [List.getD_eq_getElem _ _ hn, List.getD_eq_getElem _ _ hi] at heq
  rw [List.getD_eq_getElem _ _ hi]
  simp [heq]

/-- C1, witness for the amended theorem: for the training front `[[5]]`
(where nadir = ideal = 5) the denominator is `1 - 5`. -/
theorem C1_denominator_amended_witness :
    (normDenominator [[(5 : ℚ)]]).getD 0 0 =
      1 - (colMin (get_pareto_front [[(5 : ℚ)]])).getD 0 0 :=
  C1_denominator_amended [[(5 : ℚ)]] 0
    (by norm_num [get_pareto_front, dominates, colMax])
    (by norm_num [get_pareto_front, dominates, colMin])
    (by norm_num [get_pareto_front, dominates, colMax, colMin])

/-! ## Probability of Feasibility (`ProbabilityOfFeasibility`, infill.py:247-281) -/

/-- Default resolution of the `min_pof` constructor argument
(`ProbabilityOfFeasibility.__init__`, infill.py:262-265): `None` means 0.5. -/
def ProbabilityOfFeasibility_min_pof (given : Option ℚ) : ℚ := given.getD (1/2)

/-- `ProbabilityOfFeasibility._pof` on one matrix entry (infill.py:275-281):
`pof = norm.cdf(-g/np.sqrt(g_var))`, then entries where `pof` is NaN are
replaced by 1 where `g <= 0` and by 0 where `g > 0` (an entry whose `g` is
itself NaN fails both comparisons and stays NaN). -/
def pof (O : NumOracle) (g gvar : RF) : RF :=
  let p := O.cdf ((-g) / sqrtRF O.sqrtQ gvar)
  if p = RF.nan then
    if RF.leb g (RF.fin 0) then RF.fin 1
    else if RF.ltb (RF.fin 0) g then RF.fin 0
    else RF.nan
  else p

/-- `ProbabilityOfFeasibility.evaluate` (infill.py:271-273): elementwise
`min_pof - pof`. -/
def ProbabilityOfFeasibility_evaluate (O : NumOracle) (minPof : ℚ)
    (g gvar : RFMat) : RFMat :=
  List.zipWith (List.zipWith (fun a b => RF.fin minPof - pof O a b)) g gvar

/-- Helper: for any `p : RF` and rational `m`, `m - p <= 0` holds (as a
numpy boolean) exactly when `p >= m` holds.  This is the sign identity
behind the PoF constraint transform. -/
theorem leb_sub_zero (m : ℚ) (p : RF) :
    RF.leb (RF.fin m - p) (RF.fin 0) = RF.leb (RF.fin m) p := by
  cases p with
  | fin q =>
      show RF.leb (RF.fin (m + -q)) (RF.fin 0) = _
      simp only [RF.leb, decide_eq_decide]
      constructor <;> intro h <;> linarith
  | pinf => rfl
  | ninf => rfl
  | nan => rfl

/-! # C3 -/

/-- C3: for every constraint matrix entry, `ProbabilityOfFeasibility.evaluate`
returns `min_pof - Φ(-g_mean/√g_var)` (with NaN entries of the CDF result
resolved to PoF = 1 when `g_mean ≤ 0` and PoF = 0 when `g_mean > 0`), the
default `min_pof` is 0.5, in the zero-variance case the resolved PoF is 1
when `g_mean ≤ 0` and 0 when `g_mean > 0` (assuming the standard-normal CDF
facts `Φ(+inf) = 1`, `Φ(-inf) = 0`, `Φ(NaN) = NaN` and `sqrt 0 = 0` about
the library oracle), and the returned value is `≤ 0` exactly when the
resolved feasibility probability is `≥ min_pof`. -/
theorem C3_pof_evaluate (O : NumOracle) (minPof : ℚ) (g gvar : RFMat)
    (i : ℕ) (hi : i < g.length) (hj : i < gvar.length)
    (hcp : O.cdf RF.pinf = RF.fin 1) (hcn : O.cdf RF.ninf = RF.fin 0)
    (hcnan : O.cdf RF.nan = RF.nan) (hs0 : O.sqrtQ 0 = 0) :
    ProbabilityOfFeasibility_min_pof none = 1/2 ∧
    (ProbabilityOfFeasibility_evaluate O minPof g gvar).getD i [] =
      List.zipWith (fun a b => RF.fin minPof - pof O a b) (g.getD i [])
        (gvar.getD i []) ∧
    (∀ gm : ℚ, pof O (RF.fin gm) (RF.fin 0) =
      if gm ≤ 0 then RF.fin 1 else RF.fin 0) ∧
    (∀ gm : ℚ, pof O (RF.fin gm) RF.nan =
      if gm ≤ 0 then RF.fin 1 else RF.fin 0) ∧
    (∀ a b : RF,
      RF.leb (RF.fin minPof - pof O a b) (RF.fin 0) =
      RF.leb (RF.fin minPof) (pof O a b)) := by
  refine ⟨rfl, ?_, ?_, ?_, fun a b => leb_sub_zero minPof (pof O a b)⟩
  · unfold ProbabilityOfFeasibility_evaluate
    have hlen : i < (List.zipWith
        (List.zipWith (fun a b => RF.fin minPof - pof O a b)) g gvar).length := by
      rw [List.length_zipWith]; omega
    rw [List.getD_eq_getElem _ _ hlen, List.getElem_zipWith,
      List.getD_eq_getElem _ _ hi, List.getD_eq_getElem _ _ hj]
  · intro gm
    unfold pof -- zero-variance case
    rcases le_or_lt gm 0 with h | h
    · rcases lt_or_eq_of_le h with h2 | h2
      · have : -RF.fin gm = RF.fin (-gm) := rfl
        simp only [this, sqrtRF, hs0]
        have hdviv : RF.fin (-gm) / RF.fin 0 = RF.pinf := by
          simp only [HDiv.hDiv, Div.div, RF.div]
          norm_num [h2]
        simp [hdviv, hcp, h]
      · subst h2
        have hdviv : RF.fin (-(0:ℚ)) / RF.fin (O.sqrtQ 0) = RF.nan := by
          rw [hs0]
          simp only [HDiv.hDiv, Div.div, RF.div]
          norm_num
        have : -RF.fin (0:ℚ) = RF.fin (-(0:ℚ)) := rfl
        simp only [sqrtRF, this, if_neg (by norm_num : ¬ (0:ℚ) < 0), hdviv, hcnan]
        simp [RF.leb]
    · have : -RF.fin gm = RF.fin (-gm) := rfl
      simp only [this, sqrtRF, hs0]
      have hdviv : RF.fin (-gm) / RF.fin 0 = RF.ninf := by
        simp only [HDiv.hDiv, Div.div, RF.div]
        have h1 : ¬ (0:ℚ) < -gm := by linarith
        have h2 : -gm < 0 := by linarith
        norm_num [h1, h2]
      have hne : ¬ gm ≤ 0 := not_le.mpr h
      simp [hdviv, hcn, hne]
  · intro gm
    unfold pof
    have hdviv : -RF.fin gm / sqrtRF O.sqrtQ RF.nan = RF.nan := by
      simp only [sqrtRF]
      cases hgm : -RF.fin gm <;> rfl
    rcases le_or_lt gm 0 with h | h
    · simp [hdviv, hcnan, RF.leb, h]
    · have hne : ¬ gm ≤ 0 := not_le.mpr h
      simp [hdviv, hcnan, RF.leb, RF.ltb, h, hne]

/-- C3, witness: a concrete oracle (the CDF clamped piecewise-linear map,
exact on the special values) at `min_pof = 1/2`, `g = [[0]]`,
`g_var = [[0]]`, instantiating every hypothesis of `C3_pof_evaluate`. -/
theorem C3_pof_evaluate_witness :
    let O : NumOracle :=
      { cdf := fun v => match v with
          | RF.pinf => RF.fin 1
          | RF.ninf => RF.fin 0
          | RF.nan => RF.nan
          | RF.fin q => RF.fin (max 0 (min 1 (1/2 + q/4)))
        pdf := fun _ => RF.fin (2/5)
        sqrtQ := fun q => if q = 4 then 2 else if q = 1 then 1 else 0 }
    ProbabilityOfFeasibility_min_pof none = 1/2 ∧
    (ProbabilityOfFeasibility_evaluate O (1/2) [[RF.fin 0]] [[RF.fin 0]]).getD 0 [] =
      List.zipWith (fun a b => RF.fin (1/2) - pof O a b) [RF.fin 0] [RF.fin 0] ∧
    (∀ gm : ℚ, pof O (RF.fin gm) (RF.fin 0) =
      if gm ≤ 0 then RF.fin 1 else RF.fin 0) ∧
    (∀ gm : ℚ, pof O (RF.fin gm) RF.nan =
      if gm ≤ 0 then RF.fin 1 else RF.fin 0) ∧
    (∀ a b : RF,
      RF.leb (RF.fin (1/2) - pof O a b) (RF.fin 0) =
      RF.leb (RF.fin (1/2)) (pof O a b)) := by
  intro O
  exact C3_pof_evaluate O (1/2) [[RF.fin 0]] [[RF.fin 0]] 0
    (by norm_num) (by norm_num) rfl rfl rfl (by norm_num)

/-! ## Lower Confidence Bound (`LowerConfidenceBoundInfill`, infill.py:494-518) -/

/-- Default resolution of the `alpha` constructor argument
(`LowerConfidenceBoundInfill.__init__`, infill.py:509-511): the default is 2. -/
def LowerConfidenceBoundInfill_alpha (given : Option ℚ) : ℚ := given.getD 2

/-- `LowerConfidenceBoundInfill.evaluate_f` (infill.py:516-518):
`lcb = f_predict - alpha * np.sqrt(f_var_predict)` elementwise. -/
def lcb_evaluate_f (O : NumOracle) (alpha : ℚ) (fPredict fVarPredict : RFMat) : RFMat :=
  List.zipWith
    (List.zipWith (fun m v => m - RF.fin alpha * sqrtRF O.sqrtQ v))
    fPredict fVarPredict

/-! # C8 -/

/-- C8: `LowerConfidenceBoundInfill.evaluate_f` returns
`mean - alpha * sqrt(variance)` elementwise, `alpha` defaults to 2, and at
mean `[[1.0]]`, variance `[[4.0]]`, `alpha = 2` the acquisition value is
`[[-3.0]]` (using that the library square root satisfies `sqrt 4 = 2`). -/
theorem C8_lcb (O : NumOracle) (alpha : ℚ) (f fvar : RFMat)
    (i : ℕ) (hi : i < f.length) (hj : i < fvar.length)
    (hs4 : O.sqrtQ 4 = 2) :
    LowerConfidenceBoundInfill_alpha none = 2 ∧
    (lcb_evaluate_f O alpha f fvar).getD i [] =
      List.zipWith (fun m v => m - RF.fin alpha * sqrtRF O.sqrtQ v)
        (f.getD i []) (fvar.getD i []) ∧
    lcb_evaluate_f O 2 [[RF.fin 1]] [[RF.fin 4]] = [[RF.fin (-3)]] := by
  refine ⟨rfl, ?_, ?_⟩
  · unfold lcb_evaluate_f
    have hlen : i < (List.zipWith
        (List.zipWith (fun m v => m - RF.fin alpha * sqrtRF O.sqrtQ v))
        f fvar).length := by
      rw [List.length_zipWith]; omega
    rw [List.getD_eq_getElem _ _ hlen, List.getElem_zipWith,
      List.getD_eq_getElem _ _ hi, List.getD_eq_getElem _ _ hj]
  · show [[RF.fin 1 - RF.fin 2 * sqrtRF O.sqrtQ (RF.fin 4)]] = [[RF.fin (-3)]]
    have h4 : sqrtRF O.sqrtQ (RF.fin 4) = RF.fin 2 := by
      simp [sqrtRF, hs4]
    rw [h4]
    show [[RF.fin (1 + -(2 * 2))]] = [[RF.fin (-3)]]
    norm_num

/-- C8, witness: `C8_lcb` instantiated at a concrete oracle whose `sqrtQ`
maps 4 to 2, with mean `[[1]]`, variance `[[4]]`. -/
theorem C8_lcb_witness :
    let O : NumOracle := { cdf := fun v => v, pdf := fun v => v,
                           sqrtQ := fun q => if q = 4 then 2 else 0 }
    LowerConfidenceBoundInfill_alpha none = 2 ∧
    (lcb_evaluate_f O 2 [[RF.fin 1]] [[RF.fin 4]]).getD 0 [] =
      List.zipWith (fun m v => m - RF.fin 2 * sqrtRF O.sqrtQ v)
        [RF.fin 1] [RF.fin 4] ∧
    lcb_evaluate_f O 2 [[RF.fin 1]] [[RF.fin 4]] = [[RF.fin (-3)]] := by
  intro O
  exact C8_lcb O 2 [[RF.fin 1]] [[RF.fin 4]] 0
    (by norm_num) (by norm_num) (by norm_num)

/-! ## Infill criterion variants and the default policy
(`get_default_infill`, infill.py:42-80)

The criterion classes of infill.py are represented by a closed inductive
type carrying their constructor arguments; `get_default_infill` is a pure
function of the problem shape (`n_obj`, whether all design variables are
continuous) and the parallel-evaluation capacity. -/

/-- The `ConstrainedInfill` subclasses of infill.py, with their constructor
arguments: `FunctionEstimateConstrainedInfill`, `ExpectedImprovementInfill`,
`LowerConfidenceBoundInfill(alpha)`, `ProbabilityOfImprovementInfill(f_min_offset)`,
`MinimumPoIInfill(euclidean)`, `EnsembleInfill(infills)`. -/
inductive InfillKind where
  | functionEstimateConstrained : InfillKind
  | expectedImprovement : InfillKind
  | lowerConfidenceBound : ℚ → InfillKind
  | probabilityOfImprovement : ℚ → InfillKind
  | minimumPoI : Bool → InfillKind
  | ensemble : List InfillKind → InfillKind

/-- `so_ensemble` of `get_default_infill` (infill.py:63):
`[ExpectedImprovementInfill(), LowerConfidenceBoundInfill(), ProbabilityOfImprovementInfill()]`
with the constructor defaults `alpha = 2`, `f_min_offset = 0`. -/
def so_ensemble : List InfillKind :=
  [InfillKind.expectedImprovement, InfillKind.lowerConfidenceBound 2,
   InfillKind.probabilityOfImprovement 0]

/-- `mo_ensemble` of `get_default_infill` (infill.py:64):
`[MinimumPoIInfill(), MinimumPoIInfill(euclidean=True)]`. -/
def mo_ensemble : List InfillKind :=
  [InfillKind.minimumPoI false, InfillKind.minimumPoI true]

/-- `get_default_infill` (infill.py:42-80) as a function of the problem
shape: `n_obj`, whether all design variables are continuous
(`np.all(problem.is_cont_mask)`), and the already-resolved parallel
capacity `n_parallel`.  Returns the chosen criterion and the recommended
infill batch size. -/
def get_default_infill (nObj : ℕ) (isContinuous : Bool) (nParallel : ℕ) :
    InfillKind × ℕ :=
  if nParallel > 1 then
    (InfillKind.ensemble (if nObj = 1 then so_ensemble else mo_ensemble), nParallel)
  else if nObj > 1 then (InfillKind.ensemble mo_ensemble, 1)
  else if isContinuous then (InfillKind.functionEstimateConstrained, 1)
  else (InfillKind.ensemble so_ensemble, 1)

/-- `get_n_infill_objectives` of each criterion for a problem with `nObj`
objectives: the EI/PoI/LCB/direct-estimate criteria declare `problem.n_obj`
(infill.py:209-210, 329-330, 353-354, 458-459, 513-514), `MinimumPoIInfill`
declares 1 (infill.py:541-542), and `EnsembleInfill` declares the sum over
its sub-criteria (infill.py:640-641). -/
def get_n_infill_objectives (nObj : ℕ) : InfillKind → ℕ
  | InfillKind.functionEstimateConstrained => nObj
  | InfillKind.expectedImprovement => nObj
  | InfillKind.lowerConfidenceBound _ => nObj
  | InfillKind.probabilityOfImprovement _ => nObj
  | InfillKind.minimumPoI _ => 1
  | InfillKind.ensemble infills => go infills
where
  /-- `sum([infill.get_n_infill_objectives() for infill in self.infills])`. -/
  go : List InfillKind → ℕ
    | [] => 0
    | k :: rest => get_n_infill_objectives nObj k + go rest

/-! # C6 -/

/-- C6: the default infill policy.  For `n_parallel > 1` it returns the
{EI, LCB, PoI} ensemble (single-objective) or the {MPoI, MPoI-euclidean}
ensemble (multi-objective) with batch size `n_parallel`; for
`n_parallel = 1` it returns the MPoI ensemble with batch size 1 when
multi-objective, the direct function-estimate criterion with batch size 1
when single-objective all-continuous, and the {EI, LCB, PoI} ensemble with
batch size 1 when single-objective mixed-discrete. -/
theorem C6_default_infill (nObj nParallel : ℕ) (isContinuous : Bool) :
    (nParallel > 1 →
      get_default_infill nObj isContinuous nParallel =
        (InfillKind.ensemble (if nObj = 1 then so_ensemble else mo_ensemble),
         nParallel)) ∧
    (nParallel = 1 → nObj > 1 →
      get_default_infill nObj isContinuous nParallel =
        (InfillKind.ensemble mo_ensemble, 1)) ∧
    (nParallel = 1 → nObj = 1 → isContinuous = true →
      get_default_infill nObj isContinuous nParallel =
        (InfillKind.functionEstimateConstrained, 1)) ∧
    (nParallel = 1 → nObj = 1 → isContinuous = false →
      get_default_infill nObj isContinuous nParallel =
        (InfillKind.ensemble so_ensemble, 1)) := by
  refine ⟨fun h => ?_, fun h1 h2 => ?_, fun h1 h2 h3 => ?_, fun h1 h2 h3 => ?_⟩
  · simp [get_default_infill, h]
  · subst h1; simp [get_default_infill, h2, Nat.not_lt.mpr (le_refl 1)]
  · subst h1 h2 h3; rfl
  · subst h1 h2 h3; rfl

/-- C6, witness: the two scenarios from the spec's default-policy test:
`n_obj = 2, n_parallel = 4` gives the two-member MPoI ensemble with batch
size 4, and `n_obj = 1`, continuous, `n_parallel = 1` gives the direct
function-estimate criterion with batch size 1. -/
theorem C6_default_infill_witness :
    get_default_infill 2 true 4 = (InfillKind.ensemble mo_ensemble, 4) ∧
    get_default_infill 1 true 1 = (InfillKind.functionEstimateConstrained, 1) := by
  constructor
  · have h := (C6_default_infill 2 4 true).1 (by norm_num)
    simpa using h
  · exact (C6_default_infill 1 1 true).2.2.1 rfl rfl rfl

/-! # C7 -/

/-- C7: `EnsembleInfill.get_n_infill_objectives` equals the sum of the
sub-criteria's declared objective arities, and the default 3-member
single-objective ensemble {EI, LCB, PoI} has arity 3. -/
theorem C7_ensemble_arity (nObj : ℕ) (infills : List InfillKind) :
    get_n_infill_objectives nObj (InfillKind.ensemble infills) =
      (infills.map (get_n_infill_objectives nObj)).sum ∧
    get_n_infill_objectives 1 (InfillKind.ensemble so_ensemble) = 3 := by
  constructor
  · show get_n_infill_objectives.go nObj infills = _
    induction infills with
    | nil => rfl
    | cons k rest ih => simp [get_n_infill_objectives.go, ih]
  · rfl

/-! ## Expected Improvement (`ExpectedImprovementInfill`, infill.py:336-394) -/

/-- The `1e-30` guard added to the variance-normalization denominator
(`_normalize_f_var`, infill.py:382 and infill.py:486). -/
def eps30 : ℚ := 1 / 10 ^ 30

/-- One entry of the normalized prediction `f_norm = (f-ideal)/(nadir-ideal)`
(`_normalize_f_var`, infill.py:381 / infill.py:485). -/
def normF_entry (x : RF) (n i : ℚ) : RF := (x - RF.fin i) / RF.fin (n - i)

/-- One entry of the normalized variance
`f_var_norm = f_var/((nadir-ideal+1e-30)**2)` (infill.py:382 / infill.py:486). -/
def normVar_entry (v : RF) (n i : ℚ) : RF := v / RF.fin ((n - i + eps30) ^ 2)

/-- One row of the normalized Pareto front
`f_pareto_norm = (f_pareto-ideal_point)/(nadir_point-ideal_point)`
(infill.py:365 / infill.py:470); front outcomes are exact. -/
def frontNormRow (r nadir ideal : QRow) : RFRow :=
  List.zipWith3 (fun x n i => RF.fin (x - i) / RF.fin (n - i)) r nadir ideal

/-- `np.sum((f_pareto_norm-f_norm[i,:])**2, axis=1)` for one front row
(infill.py:371 / infill.py:476). -/
def sqSumDiff (a b : RFRow) : RF :=
  (List.zipWith (fun x y => (x - y) * (x - y)) a b).foldl (fun s t => s + t)
    (RF.fin 0)

/-- `np.argmin`: index of the first smallest entry, with numpy's NaN rule
(the first NaN, if any, wins). -/
def argminAux : List RF → ℕ → ℕ → RF → ℕ
  | [], _, besti, _ => besti
  | v :: rest, i, besti, bestv =>
    if (v = RF.nan ∧ bestv ≠ RF.nan) ∨ RF.ltb v bestv then
      argminAux rest (i + 1) i v
    else argminAux rest (i + 1) besti bestv

/-- `np.argmin` over a list (0 on the empty list). -/
def argminIdx : List RF → ℕ
  | [] => 0
  | v :: rest => argminAux rest 1 0 v

/-- The raw EI formula of `ExpectedImprovementInfill._ei` (infill.py:386-388):
`ei = dy*norm.cdf(dy/np.sqrt(f_var)) + f_var*norm.pdf(dy/np.sqrt(f_var))`
with `dy = f_min - f`.  Note the multiplier of the PDF term is the
*variance* `f_var`, not its square root. -/
def ei_entry (O : NumOracle) (fmin f fvar : RF) : RF :=
  let dy := fmin - f
  dy * O.cdf (dy / sqrtRF O.sqrtQ fvar) +
    fvar * O.pdf (dy / sqrtRF O.sqrtQ fvar)

/-- The NaN substitution of `_ei` (infill.py:390-392): NaN entries become 1
where `dy > 0` and 0 where `dy <= 0` (a NaN `dy` fails both comparisons, so
such an entry stays NaN). -/
def ei_nan_mask (dy e : RF) : RF :=
  if e = RF.nan then
    if RF.ltb (RF.fin 0) dy then RF.fin 1
    else if RF.leb dy (RF.fin 0) then RF.fin 0
    else RF.nan
  else e

/-- `_ei` on one row of normalized values (infill.py:385-394). -/
def ei_row (O : NumOracle) (fParMin fNorm fVarNorm : RFRow) : RFRow :=
  List.zipWith3
    (fun fm x v => ei_nan_mask (fm - x) (ei_entry O fm x v)) fParMin fNorm fVarNorm

/-- `ExpectedImprovementInfill._evaluate_f_ei` (infill.py:359-377): normalize
against the training Pareto front, find the closest normalized front point
for each query row, apply `_ei`, clip negatives to 0 and return `1 - ei`. -/
def evaluate_f_ei (O : NumOracle) (f fVar : RFMat) (fCurrent : List QRow) : RFMat :=
  let fp := get_pareto_front fCurrent
  let nadir := nadirMasked (colMax fp) (colMin fp)
  let ideal := colMin fp
  let fpNorm : RFMat := fp.map (fun r => frontNormRow r nadir ideal)
  List.zipWith (fun frow vrow =>
    let fn := List.zipWith3 (fun x n i => normF_entry x n i) frow nadir ideal
    let vn := List.zipWith3 (fun v n i => normVar_entry v n i) vrow nadir ideal
    let iPar := argminIdx (fpNorm.map (fun pr => sqSumDiff pr fn))
    let fParMin := fpNorm.getD iPar []
    (ei_row O fParMin fn vn).map
      (fun e => RF.fin 1 - (if RF.ltb e (RF.fin 0) then RF.fin 0 else e)))
    f fVar

/-! ### The pipeline as the C2 claim words it

The claim states the classic EI formula `EI = Δ·Φ(Δ/σ) + σ·φ(Δ/σ)` with
`σ = √variance`: the multiplier of the PDF term is `σ`. -/

/-- The EI formula exactly as the C2 claim states it:
`EI = Δ·Φ(Δ/σ) + σ·φ(Δ/σ)`, `Δ = f_front − f_predicted`, `σ = √variance`. -/
def ei_formula_claimed (O : NumOracle) (ffront fpred var : RF) : RF :=
  let d := ffront - fpred
  let s := sqrtRF O.sqrtQ var
  d * O.cdf (d / s) + s * O.pdf (d / s)

/-- The EI formula of the amended claim: the PDF term is multiplied by the
(normalized) variance itself, `EI = Δ·Φ(Δ/σ) + var·φ(Δ/σ)`. -/
def ei_formula_amended (O : NumOracle) (ffront fpred var : RF) : RF :=
  let d := ffront - fpred
  let s := sqrtRF O.sqrtQ var
  d * O.cdf (d / s) + var * O.pdf (d / s)

/-- One output entry per the claim text, as a function of the EI formula in
use: replace a NaN EI by 1 where `Δ > 0` and by 0 where `Δ ≤ 0`, clip
negative EI to 0, and report `1 − EI`. -/
def ei_claim_post (d e : RF) : RF :=
  let e2 := ei_nan_mask d e
  RF.fin 1 - (if RF.ltb e2 (RF.fin 0) then RF.fin 0 else e2)

/-- The nearest normalized Pareto-front point for a query row (by squared
Euclidean distance in normalized objective space, first index on ties). -/
def nearestFrontPoint (fpNorm : RFMat) (fn : RFRow) : RFRow :=
  fpNorm.getD (argminIdx (fpNorm.map (fun pr => sqSumDiff pr fn))) []

/-- `_evaluate_f_ei` as the C2 claim describes it, with the claimed
`σ·φ` PDF-term multiplier. -/
def evaluate_f_ei_claimed (O : NumOracle) (f fVar : RFMat)
    (fCurrent : List QRow) : RFMat :=
  let fp := get_pareto_front fCurrent
  let nadir := nadirMasked (colMax fp) (colMin fp)
  let ideal := colMin fp
  let fpNorm : RFMat := fp.map (fun r => frontNormRow r nadir ideal)
  List.zipWith (fun frow vrow =>
    let fn := List.zipWith3 (fun x n i => normF_entry x n i) frow nadir ideal
    let vn := List.zipWith3 (fun v n i => normVar_entry v n i) vrow nadir ideal
    let fpm := nearestFrontPoint fpNorm fn
    List.zipWith3
      (fun fm x v => ei_claim_post (fm - x) (ei_formula_claimed O fm x v))
      fpm fn vn)
    f fVar

/-- `_evaluate_f_ei` as the amended claim describes it: identical to
`evaluate_f_ei_claimed` except that the PDF term carries the variance. -/
def evaluate_f_ei_amended (O : NumOracle) (f fVar : RFMat)
    (fCurrent : List QRow) : RFMat :=
  let fp := get_pareto_front fCurrent
  let nadir := nadirMasked (colMax fp) (colMin fp)
  let ideal := colMin fp
  let fpNorm : RFMat := fp.map (fun r => frontNormRow r nadir ideal)
  List.zipWith (fun frow vrow =>
    let fn := List.zipWith3 (fun x n i => normF_entry x n i) frow nadir ideal
    let vn := List.zipWith3 (fun v n i => normVar_entry v n i) vrow nadir ideal
    let fpm := nearestFrontPoint fpNorm fn
    List.zipWith3
      (fun fm x v => ei_claim_post (fm - x) (ei_formula_amended O fm x v))
      fpm fn vn)
    f fVar

/-- Mapping a function over a `zipWith3` composes with the entry function. -/
theorem map_zipWith3 {α β γ δ ε : Type} (h : δ → ε) (g : α → β → γ → δ)
    (l1 : List α) (l2 : List β) (l3 : List γ) :
    (List.zipWith3 g l1 l2 l3).map h =
      List.zipWith3 (fun a b c => h (g a b c)) l1 l2 l3 := by
  induction l1 generalizing l2 l3 with
  | nil => cases l2 <;> cases l3 <;> rfl
  | cons a l1 ih =>
    cases l2 with
    | nil => rfl
    | cons b l2 =>
      cases l3 with
      | nil => rfl
      | cons c l3 => simp [List.zipWith3, ih]

/-! # C2 -/


/-! Computation lemmas for `RF` operations on finite values, used to
evaluate the pipelines on concrete inputs. -/

namespace RF

theorem fin_add (a b : ℚ) : fin a + fin b = fin (a + b) := rfl

theorem fin_mul (a b : ℚ) : fin a * fin b = fin (a * b) := rfl

theorem neg_fin (a : ℚ) : -fin a = fin (-a) := rfl

theorem fin_sub (a b : ℚ) : fin a - fin b = fin (a - b) := by
  show add (fin a) (neg (fin b)) = _
  simp [add, neg, sub_eq_add_neg]

theorem fin_div_def (a b : ℚ) :
    fin a / fin b =
      if b = 0 then (if 0 < a then pinf else if a < 0 then ninf else nan)
      else fin (a / b) := rfl

theorem leb_fin (a b : ℚ) : leb (fin a) (fin b) = decide (a ≤ b) := rfl

theorem ltb_fin (a b : ℚ) : ltb (fin a) (fin b) = decide (a < b) := rfl

theorem fin_ne_nan (a : ℚ) : (fin a = nan) = False := by simp

end RF

/-- A concrete instantiation of the numeric oracle used in counterexamples
and witnesses: the CDF and PDF are the constant `1/2` (any fixed values
work — the refuted statements are claimed for *every* CDF/PDF), and the
square root is exact on the arguments that occur in the computations. -/
def testOracle : NumOracle where
  cdf := fun _ => RF.fin (1/2)
  pdf := fun _ => RF.fin (1/2)
  sqrtQ := fun q =>
    if q = 4 then 2 else if q = 1 then 1 else if q = 1/10^12 then 1/10^6 else 0

set_option maxHeartbeats 2000000 in
/-- C2, counterexample.  With the training set `[[0]]` (front `[[0]]`,
normalized denominator 1), prediction mean `[[0]]` and variance
`[[4·(1+1e-30)²]]` (so the *normalized* variance `f_var_norm` is exactly 4,
`σ = 2`), and an oracle with `Φ(0) = φ(0) = 1/2`: the code's EI is
`0·Φ(0) + 4·φ(0) = 2` (output `1 − 2 = −1`) while the claimed formula
`Δ·Φ(Δ/σ) + σ·φ(Δ/σ)` gives `0·Φ(0) + 2·φ(0) = 1` (output `0`): the code
multiplies the PDF term by the variance, not by `σ = √variance`. -/
theorem C2_counterexample :
    evaluate_f_ei testOracle [[RF.fin 0]] [[RF.fin (4 * (1 + eps30) ^ 2)]]
        [[(0 : ℚ)]] = [[RF.fin (-1)]] ∧
    evaluate_f_ei_claimed testOracle [[RF.fin 0]] [[RF.fin (4 * (1 + eps30) ^ 2)]]
        [[(0 : ℚ)]] = [[RF.fin 0]] ∧
    evaluate_f_ei testOracle [[RF.fin 0]] [[RF.fin (4 * (1 + eps30) ^ 2)]]
        [[(0 : ℚ)]] ≠
      evaluate_f_ei_claimed testOracle [[RF.fin 0]] [[RF.fin (4 * (1 + eps30) ^ 2)]]
        [[(0 : ℚ)]] := by
  have h1 : evaluate_f_ei testOracle [[RF.fin 0]] [[RF.fin (4 * (1 + eps30) ^ 2)]]
      [[(0 : ℚ)]] = [[RF.fin (-1)]] := by
    norm_num [evaluate_f_ei, get_pareto_front, dominates, colMax, colMin,
      nadirMasked, frontNormRow, List.zipWith3, normF_entry, normVar_entry,
      sqSumDiff, argminIdx, argminAux, ei_row, ei_entry, ei_nan_mask, sqrtRF,
      testOracle, eps30, RF.fin_add, RF.fin_mul, RF.fin_sub, RF.fin_div_def,
      RF.leb_fin, RF.ltb_fin, RF.fin_ne_nan]
  have h2 : evaluate_f_ei_claimed testOracle [[RF.fin 0]]
      [[RF.fin (4 * (1 + eps30) ^ 2)]] [[(0 : ℚ)]] = [[RF.fin 0]] := by
    norm_num [evaluate_f_ei_claimed, get_pareto_front, dominates, colMax,
      colMin, nadirMasked, frontNormRow, List.zipWith3, normF_entry,
      normVar_entry, sqSumDiff, argminIdx, argminAux, nearestFrontPoint,
      ei_claim_post, ei_formula_claimed, ei_nan_mask, sqrtRF,
      testOracle, eps30, RF.fin_add, RF.fin_mul, RF.fin_sub, RF.fin_div_def,
      RF.leb_fin, RF.ltb_fin, RF.fin_ne_nan]
  refine ⟨h1, h2, ?_⟩
  rw [h1, h2]
  simp

/-- C2, amended.  For every query point (and every CDF/PDF/sqrt library
oracle), `_evaluate_f_ei` computes EI against the nearest normalized
Pareto-front point per objective as `EI = Δ·Φ(Δ/σ) + var·φ(Δ/σ)` with
`Δ = f_front − f_predicted`, `σ = √variance` and `var` the normalized
variance itself (this is the single amendment: the PDF term carries the
variance, not its square root), replaces NaN results by 1 where `Δ > 0`
and by 0 where `Δ ≤ 0`, clips negative EI to 0, and returns `1 − EI`. -/
theorem C2_ei_amended (O : NumOracle) (f fVar : RFMat) (fCurrent : List QRow) :
    evaluate_f_ei O f fVar fCurrent =
      evaluate_f_ei_amended O f fVar fCurrent := by
  simp only [evaluate_f_ei, evaluate_f_ei_amended, nearestFrontPoint, ei_row,
    map_zipWith3, ei_claim_post, ei_formula_amended, ei_entry]

/-! ## Probability of Improvement (`ProbabilityOfImprovementInfill`,
infill.py:434-491) -/

/-- `ProbabilityOfImprovementInfill._poi` on one entry (infill.py:489-491):
`norm.cdf((f_targets-f) / np.sqrt(f_var))`. -/
def poi_entry (O : NumOracle) (target f fvar : RF) : RF :=
  O.cdf ((target - f) / sqrtRF O.sqrtQ fvar)

/-- `ProbabilityOfImprovementInfill._evaluate_f_poi` (infill.py:464-481):
the same normalization and closest-front-point lookup as `_evaluate_f_ei`,
targets offset by `f_min_offset`, output `1 - poi` (no NaN mask, no clip). -/
def evaluate_f_poi (O : NumOracle) (f fVar : RFMat) (fCurrent : List QRow)
    (fMinOffset : ℚ) : RFMat :=
  let fp := get_pareto_front fCurrent
  let nadir := nadirMasked (colMax fp) (colMin fp)
  let ideal := colMin fp
  let fpNorm : RFMat := fp.map (fun r => frontNormRow r nadir ideal)
  List.zipWith (fun frow vrow =>
    let fn := List.zipWith3 (fun x n i => normF_entry x n i) frow nadir ideal
    let vn := List.zipWith3 (fun v n i => normVar_entry v n i) vrow nadir ideal
    let iPar := argminIdx (fpNorm.map (fun pr => sqSumDiff pr fn))
    let fParTargets := (fpNorm.getD iPar []).map (fun t => t - RF.fin fMinOffset)
    List.zipWith3 (fun t x v => RF.fin 1 - poi_entry O t x v) fParTargets fn vn)
    f fVar

/-! ## Minimum Probability of Improvement (`MinimumPoIInfill`,
infill.py:521-597) -/

/-- `np.min` over a list: pairwise minimum propagating NaN (empty: NaN,
numpy raises there). -/
def listMinRF : List RF → RF
  | [] => RF.nan
  | v :: rest => rest.foldl RF.minRF v

/-- `np.prod` over a list of values. -/
def prodRF (l : List RF) : RF := l.foldl (fun a b => a * b) (RF.fin 1)

/-- `cdf_not_better` of `MinimumPoIInfill._mpoi` (infill.py:568-569, Rahat
2017 Eq. 11-12): `ndtr((f_pred-f)/np.sqrt(var_pred))`; `ndtr` is the
standard normal CDF. -/
def cdf_not_better (O : NumOracle) (f fpred varpred : RF) : RF :=
  O.cdf ((fpred - f) / sqrtRF O.sqrtQ varpred)

/-- `MinimumPoIInfill._get_euclidean_moment` (infill.py:590-597): 0 when
the domination probability is below 0.5 (NaN also takes the non-zero
branch, as `nan < .5` is false), otherwise the minimum Euclidean distance
from the prediction to the Pareto front. -/
def get_euclidean_moment (O : NumOracle) (pDominate : RF) (fPareto : List QRow)
    (fPredict : RFRow) : RF :=
  if RF.ltb pDominate (RF.fin (1/2)) then RF.fin 0
  else
    listMinRF (fPareto.map (fun fr =>
      sqrtRF O.sqrtQ (sqSumDiff fPredict (fr.map RF.fin))))

/-- `MinimumPoIInfill._mpoi` (infill.py:562-588): per front point, the
product over objective dimensions of `cdf_not_better` is the probability
of being dominated; `p_dom = 1 - p_is_dom`; take the minimum over front
points; in euclidean mode multiply by the euclidean moment. -/
def mpoi (O : NumOracle) (fPareto : List QRow) (fPredict varPredict : RFRow)
    (euclid : Bool) : RF :=
  let pIsDom := fPareto.map (fun fr =>
    prodRF (List.zipWith3 (fun f fp vp => cdf_not_better O (RF.fin f) fp vp)
      fr fPredict varPredict))
  let pDom := pIsDom.map (fun p => RF.fin 1 - p)
  let minPoi := listMinRF pDom
  if euclid then minPoi * get_euclidean_moment O minPoi fPareto fPredict
  else minPoi

/-- `MinimumPoIInfill.get_mpoi_f` (infill.py:551-560): one `_mpoi` value
per query row (a single acquisition objective), entries `< 1e-6` clamped to
0 *after* `_mpoi` (and therefore after the euclidean multiplication),
output `1 - mpoi`. -/
def get_mpoi_f (O : NumOracle) (fPredict fVarPredict : RFMat)
    (fPareto : List QRow) (euclid : Bool) : RFMat :=
  List.zipWith (fun fr vr =>
    let m := mpoi O fPareto fr vr euclid
    [RF.fin 1 - (if RF.ltb m (RF.fin (1/10^6)) then RF.fin 0 else m)])
    fPredict fVarPredict

/-- `get_mpoi_f` as the C4 claim words it: minimum over front points of
`1 -` the product, *then* the `1e-6` clamp, and only then the optional
euclidean multiplication (gated on the pre-clamp minimum domination
probability being `≥ 0.5`). -/
def get_mpoi_f_claimed (O : NumOracle) (fPredict fVarPredict : RFMat)
    (fPareto : List QRow) (euclid : Bool) : RFMat :=
  List.zipWith (fun fr vr =>
    let pDom := fPareto.map (fun frq =>
      RF.fin 1 - prodRF (List.zipWith3
        (fun f fp vp => cdf_not_better O (RF.fin f) fp vp) frq fr vr))
    let minPoi := listMinRF pDom
    let clamped := if RF.ltb minPoi (RF.fin (1/10^6)) then RF.fin 0 else minPoi
    let value :=
      if euclid then clamped * get_euclidean_moment O minPoi fPareto fr
      else clamped
    [RF.fin 1 - value])
    fPredict fVarPredict

/-- `get_mpoi_f` as the amended claim words it: identical to
`get_mpoi_f_claimed` except that the `1e-6` clamp is applied to the final
value, after the optional euclidean multiplication. -/
def get_mpoi_f_amended (O : NumOracle) (fPredict fVarPredict : RFMat)
    (fPareto : List QRow) (euclid : Bool) : RFMat :=
  List.zipWith (fun fr vr =>
    let pDom := fPareto.map (fun frq =>
      RF.fin 1 - prodRF (List.zipWith3
        (fun f fp vp => cdf_not_better O (RF.fin f) fp vp) frq fr vr))
    let minPoi := listMinRF pDom
    let value :=
      if euclid then minPoi * get_euclidean_moment O minPoi fPareto fr
      else minPoi
    [RF.fin 1 - (if RF.ltb value (RF.fin (1/10^6)) then RF.fin 0 else value)])
    fPredict fVarPredict

/-! # C4 -/

/-- C4, counterexample.  Euclidean mode, front `[[0]]`, prediction
`[-1e-6]` with variance 1, and an oracle with `Φ(-1e-6) = 1/2`,
`sqrt 1 = 1`, `sqrt 1e-12 = 1e-6`.  The minimum domination probability is
`1/2 ≥ 0.5`, the distance to the front is `1e-6`, so the euclidean value
is `5e-7 < 1e-6`.  The code clamps that product to 0 and reports 1; under
the claim's operation order (clamp before the euclidean multiplication)
nothing is clamped and the report is `1 - 5e-7`. -/
theorem C4_counterexample :
    get_mpoi_f testOracle [[RF.fin (-(1/10^6))]] [[RF.fin 1]] [[(0 : ℚ)]] true =
      [[RF.fin 1]] ∧
    get_mpoi_f_claimed testOracle [[RF.fin (-(1/10^6))]] [[RF.fin 1]]
        [[(0 : ℚ)]] true = [[RF.fin (1 - 1/2000000)]] ∧
    get_mpoi_f testOracle [[RF.fin (-(1/10^6))]] [[RF.fin 1]] [[(0 : ℚ)]] true ≠
      get_mpoi_f_claimed testOracle [[RF.fin (-(1/10^6))]] [[RF.fin 1]]
        [[(0 : ℚ)]] true := by
  have h1 : get_mpoi_f testOracle [[RF.fin (-(1/10^6))]] [[RF.fin 1]]
      [[(0 : ℚ)]] true = [[RF.fin 1]] := by
    norm_num [get_mpoi_f, mpoi, prodRF, listMinRF, RF.minRF, cdf_not_better,
      get_euclidean_moment, sqSumDiff, List.zipWith3, sqrtRF, testOracle,
      RF.fin_add, RF.fin_mul, RF.fin_sub, RF.fin_div_def, RF.leb_fin,
      RF.ltb_fin, RF.fin_ne_nan]
  have h2 : get_mpoi_f_claimed testOracle [[RF.fin (-(1/10^6))]] [[RF.fin 1]]
      [[(0 : ℚ)]] true = [[RF.fin (1 - 1/2000000)]] := by
    norm_num [get_mpoi_f_claimed, prodRF, listMinRF, RF.minRF, cdf_not_better,
      get_euclidean_moment, sqSumDiff, List.zipWith3, sqrtRF, testOracle,
      RF.fin_add, RF.fin_mul, RF.fin_sub, RF.fin_div_def, RF.leb_fin,
      RF.ltb_fin, RF.fin_ne_nan]
  refine ⟨h1, h2, ?_⟩
  rw [h1, h2]
  simp only [ne_eq, List.cons.injEq, and_true, RF.fin.injEq]
  norm_num

/-- C4, amended.  `MinimumPoIInfill` emits exactly one acquisition
objective regardless of the problem's objective count (each output row is
the single-entry list of the criterion value), and for every query point
computes, over every raw Pareto-front point, 1 minus the product across
objective dimensions of `Φ((f_predicted − f_front)/σ)`, takes the minimum
over front points, optionally (euclidean mode) multiplies by the minimum
Euclidean distance to the front when the minimum domination probability is
`≥ 0.5` and by 0 otherwise, *then* clamps values below `1e-6` to 0 (the
clamp follows the euclidean multiplication), and reports 1 minus the
result. -/
theorem C4_mpoi_amended (nObj : ℕ) (e : Bool) (O : NumOracle)
    (fPredict fVarPredict : RFMat) (fPareto : List QRow) :
    get_n_infill_objectives nObj (InfillKind.minimumPoI e) = 1 ∧
    get_mpoi_f O fPredict fVarPredict fPareto e =
      get_mpoi_f_amended O fPredict fVarPredict fPareto e ∧
    ∀ i : ℕ, i < (get_mpoi_f O fPredict fVarPredict fPareto e).length →
      ((get_mpoi_f O fPredict fVarPredict fPareto e).getD i []).length = 1 := by
  refine ⟨rfl, ?_, ?_⟩
  · simp only [get_mpoi_f, get_mpoi_f_amended, mpoi, List.map_map,
      Function.comp_def]
  · intro i h
    rw [List.getD_eq_getElem _ _ h]
    unfold get_mpoi_f
    rw [List.getElem_zipWith]
    rfl

/-- C4, witness for the amended theorem: a one-row query against the front
`[[0]]`, instantiating `C4_mpoi_amended` and discharging the row-index
bound. -/
theorem C4_mpoi_amended_witness :
    get_n_infill_objectives 7 (InfillKind.minimumPoI false) = 1 ∧
    get_mpoi_f testOracle [[RF.fin 0]] [[RF.fin 1]] [[(0 : ℚ)]] false =
      get_mpoi_f_amended testOracle [[RF.fin 0]] [[RF.fin 1]] [[(0 : ℚ)]] false ∧
    ((get_mpoi_f testOracle [[RF.fin 0]] [[RF.fin 1]] [[(0 : ℚ)]] false).getD
        0 []).length = 1 := by
  obtain ⟨h1, h2, h3⟩ :=
    C4_mpoi_amended 7 false testOracle [[RF.fin 0]] [[RF.fin 1]] [[(0 : ℚ)]]
  exact ⟨h1, h2, h3 0 (by norm_num [get_mpoi_f])⟩

/-! ## Criterion state, prediction adapter and `evaluate`
(`SurrogateInfill`, infill.py:83-203; `ConstrainedInfill`, infill.py:284-323)

The surrogate model and the normalization are external collaborators
(spec §6); they are modelled as total oracle functions on one input row
(the `FloatingPointError → all-NaN` substitution of `predict` /
`predict_variance`, infill.py:118-136, is folded into the oracle, whose
rows may be NaN). -/

/-- External surrogate model handle: per-normalized-row mean and variance
predictions (`predict_values` / `predict_variances`). -/
structure SurrModel where
  predict_values : QRow → RFRow
  predict_variances : QRow → RFRow

/-- The constraint-handling strategies (`ConstraintStrategy` subclasses,
infill.py:220-281 and infill.py:675-681). -/
inductive CStrat where
  | meanConstraintPrediction : CStrat
  | probabilityOfFeasibility : ℚ → CStrat
  | ignoreConstraints : CStrat
deriving DecidableEq, Repr

/-- `ConstraintStrategy.evaluate` dispatch: `MeanConstraintPrediction`
returns `g` (infill.py:243-244), `ProbabilityOfFeasibility` returns
`min_pof - pof` (infill.py:271-273), `IgnoreConstraints` returns
`np.zeros((x.shape[0], 0))` (infill.py:680-681). -/
def ConstraintStrategy_evaluate (O : NumOracle) (c : CStrat) (xLen : ℕ)
    (g gvar : RFMat) : RFMat :=
  match c with
  | CStrat.meanConstraintPrediction => g
  | CStrat.probabilityOfFeasibility m => ProbabilityOfFeasibility_evaluate O m g gvar
  | CStrat.ignoreConstraints => List.replicate xLen []

/-- The mutable state of a criterion instance: its variant and bound
problem shape (set by `initialize`, infill.py:143-153), the training set
(`set_samples`, infill.py:114-116), the cached Pareto front of
`MinimumPoIInfill.set_samples` (infill.py:544-546; the sub-criteria of an
ensemble are synchronized by `EnsembleInfill.set_samples`,
infill.py:635-638, so one shared training state models them), and the
infill log (infill.py:99-102). The wall-clock timing accumulator
(`time_eval_infill`) has no behavioral effect and is not modelled. -/
structure InfillState where
  kind : InfillKind
  nObj : ℕ
  nConstr : ℕ
  constraint_strategy : CStrat
  x_train : List QRow
  y_train : List QRow
  f_pareto : List QRow
  f_infill_log : List RFMat
  g_infill_log : List RFMat
  n_eval_infill : ℕ

/-- `set_samples` (infill.py:114-116, plus the `f_pareto` recomputation of
`MinimumPoIInfill.set_samples`, infill.py:544-546): rebinds the training
set wholesale. -/
def set_samples (s : InfillState) (xt yt : List QRow) : InfillState :=
  { s with x_train := xt, y_train := yt,
           f_pareto := get_pareto_front (yt.map (fun r => r.take s.nObj)) }

/-- `SurrogateInfill._split_f_g` (infill.py:138-141): objectives are
columns `[0, n_obj)`; constraints are columns `[n_obj, n_obj+n_constr)`
when `n_constr > 0`, otherwise a zero-width matrix with one row per input
row. -/
def split_f_g (nObj nConstr : ℕ) (y : RFMat) : RFMat × RFMat :=
  if nConstr > 0 then
    (y.map (fun r => r.take nObj), y.map (fun r => (r.drop nObj).take nConstr))
  else (y.map (fun r => r.take nObj), y.map (fun _ => []))

/-- `SurrogateInfill.predict` (infill.py:118-124). -/
def predict (m : SurrModel) (normF : QRow → QRow) (nObj nConstr : ℕ)
    (x : List QRow) : RFMat × RFMat :=
  split_f_g nObj nConstr (x.map (fun r => m.predict_values (normF r)))

/-- `SurrogateInfill.predict_variance` (infill.py:126-136): variances are
queried one row at a time. -/
def predict_variance (m : SurrModel) (normF : QRow → QRow) (nObj nConstr : ℕ)
    (x : List QRow) : RFMat × RFMat :=
  split_f_g nObj nConstr (x.map (fun r => m.predict_variances (normF r)))

/-- `np.column_stack` of the sub-criteria outputs
(`EnsembleInfill.evaluate_f`, infill.py:643-646). -/
def columnStack : List RFMat → RFMat
  | [] => []
  | [m] => m
  | m :: rest => List.zipWith (fun r1 r2 => r1 ++ r2) m (columnStack rest)

/-- Number of columns of a matrix (`.shape[1]`). -/
def matCols (m : RFMat) : ℕ := (m.headD []).length

mutual

/-- `evaluate_f` dispatch over the criterion variants:
`FunctionEstimateConstrainedInfill.evaluate_f` (infill.py:332-333),
`ExpectedImprovementInfill.evaluate_f` (infill.py:356-357, against
`y_train[:, :f_predict.shape[1]]`), `LowerConfidenceBoundInfill.evaluate_f`
(infill.py:516-518), `ProbabilityOfImprovementInfill.evaluate_f`
(infill.py:461-462), `MinimumPoIInfill.evaluate_f` (infill.py:548-549,
against the cached `f_pareto`), `EnsembleInfill.evaluate_f`
(infill.py:643-646, column-stacked sub-criteria outputs). -/
def evaluate_f (O : NumOracle) (yTrain fPareto : List QRow) :
    InfillKind → RFMat → RFMat → RFMat
  | InfillKind.functionEstimateConstrained, f, _ => f
  | InfillKind.expectedImprovement, f, fvar =>
      evaluate_f_ei O f fvar (yTrain.map (fun r => r.take (matCols f)))
  | InfillKind.lowerConfidenceBound a, f, fvar => lcb_evaluate_f O a f fvar
  | InfillKind.probabilityOfImprovement off, f, fvar =>
      evaluate_f_poi O f fvar (yTrain.map (fun r => r.take (matCols f))) off
  | InfillKind.minimumPoI e, f, fvar => get_mpoi_f O f fvar fPareto e
  | InfillKind.ensemble l, f, fvar =>
      columnStack (evaluate_f_list O yTrain fPareto l f fvar)

/-- `[infill.evaluate_f(f_predict, f_var_predict) for infill in self.infills]`
(infill.py:645). -/
def evaluate_f_list (O : NumOracle) (yTrain fPareto : List QRow) :
    List InfillKind → RFMat → RFMat → List RFMat
  | [], _, _ => []
  | k :: rest, f, fvar =>
      evaluate_f O yTrain fPareto k f fvar ::
        evaluate_f_list O yTrain fPareto rest f fvar

end

/-- `ConstrainedInfill._evaluate` (infill.py:307-317): query mean and
variance, apply the constraint strategy when the problem has constraints
(otherwise pass the zero-width `g` through), and delegate the objectives
to the variant-specific `evaluate_f`. -/
def ConstrainedInfill_evaluate_inner (O : NumOracle) (m : SurrModel)
    (normF : QRow → QRow) (s : InfillState) (x : List QRow) : RFMat × RFMat :=
  let fg := predict m normF s.nObj s.nConstr x
  let fgvar := predict_variance m normF s.nObj s.nConstr x
  let gInfill :=
    if s.nConstr > 0 then
      ConstraintStrategy_evaluate O s.constraint_strategy x.length fg.2 fgvar.2
    else fg.2
  (evaluate_f O s.y_train s.f_pareto s.kind fg.1 fgvar.1, gInfill)

/-- `SurrogateInfill.evaluate` (infill.py:178-189): run `_evaluate`, append
the results to the infill log, add the batch size to the evaluation
counter, and return the results. -/
def SurrogateInfill_evaluate (O : NumOracle) (m : SurrModel)
    (normF : QRow → QRow) (s : InfillState) (x : List QRow) :
    (RFMat × RFMat) × InfillState :=
  let r := ConstrainedInfill_evaluate_inner O m normF s x
  (r, { s with f_infill_log := s.f_infill_log ++ [r.1],
               g_infill_log := s.g_infill_log ++ [r.2],
               n_eval_infill := s.n_eval_infill + x.length })

mutual

/-- Well-formed criterion: every ensemble (at any depth) has at least one
sub-criterion (`np.column_stack` requires a non-empty list;
`EnsembleInfill._initialize`, infill.py:618-633, guarantees this by
substituting a default non-empty set). -/
def wfKind : InfillKind → Bool
  | InfillKind.ensemble l => !l.isEmpty && wfKindList l
  | _ => true

/-- `wfKind` on every member of a list. -/
def wfKindList : List InfillKind → Bool
  | [] => true
  | k :: rest => wfKind k && wfKindList rest

end

/-- `columnStack` of a non-empty list of matrices with `n` rows each has
`n` rows. -/
theorem columnStack_length (n : ℕ) :
    ∀ ms : List RFMat, ms ≠ [] → (∀ mm ∈ ms, mm.length = n) →
      (columnStack ms).length = n
  | [], h, _ => absurd rfl h
  | [m], _, hall => by simpa [columnStack] using hall m (by simp)
  | m :: m2 :: rest, _, hall => by
      have hrest : (columnStack (m2 :: rest)).length = n :=
        columnStack_length n (m2 :: rest) (by simp)
          (fun mm hm => hall mm (List.mem_cons_of_mem m hm))
      have hm : m.length = n := hall m (by simp)
      simp [columnStack, List.length_zipWith, hrest, hm]

mutual

/-- `evaluate_f` returns one output row per input row, for every
well-formed criterion variant. -/
theorem evaluate_f_length (O : NumOracle) (yT fp : List QRow) :
    ∀ (k : InfillKind) (f fvar : RFMat) (n : ℕ), wfKind k = true →
      f.length = n → fvar.length = n →
      (evaluate_f O yT fp k f fvar).length = n
  | InfillKind.functionEstimateConstrained, f, fvar, n, _, hf, _ => by
      simpa [evaluate_f] using hf
  | InfillKind.expectedImprovement, f, fvar, n, _, hf, hv => by
      simp [evaluate_f, evaluate_f_ei, List.length_zipWith, hf, hv]
  | InfillKind.lowerConfidenceBound a, f, fvar, n, _, hf, hv => by
      simp [evaluate_f, lcb_evaluate_f, List.length_zipWith, hf, hv]
  | InfillKind.probabilityOfImprovement off, f, fvar, n, _, hf, hv => by
      simp [evaluate_f, evaluate_f_poi, List.length_zipWith, hf, hv]
  | InfillKind.minimumPoI e, f, fvar, n, _, hf, hv => by
      simp [evaluate_f, get_mpoi_f, List.length_zipWith, hf, hv]
  | InfillKind.ensemble l, f, fvar, n, hw, hf, hv => by
      have hne : l ≠ [] := by
        intro hl
        subst hl
        simp [wfKind, List.isEmpty] at hw
      have hwl : wfKindList l = true := by
        simp [wfKind] at hw
        exact hw.2
      have hmem := evaluate_f_list_length O yT fp l f fvar n hwl hf hv
      have hlne : evaluate_f_list O yT fp l f fvar ≠ [] := by
        cases l with
        | nil => exact absurd rfl hne
        | cons k rest => simp [evaluate_f_list]
      exact columnStack_length n _ hlne hmem

/-- Companion of `evaluate_f_length` for the sub-criterion list of an
ensemble. -/
theorem evaluate_f_list_length (O : NumOracle) (yT fp : List QRow) :
    ∀ (l : List InfillKind) (f fvar : RFMat) (n : ℕ), wfKindList l = true →
      f.length = n → fvar.length = n →
      ∀ mm ∈ evaluate_f_list O yT fp l f fvar, mm.length = n
  | [], _, _, _, _, _, _ => by simp [evaluate_f_list]
  | k :: rest, f, fvar, n, hw, hf, hv => by
      simp only [wfKindList, Bool.and_eq_true] at hw
      intro mm hm
      simp only [evaluate_f_list, List.mem_cons] at hm
      rcases hm with hm | hm
      · subst hm
        exact evaluate_f_length O yT fp k f fvar n hw.1 hf hv
      · exact evaluate_f_list_length O yT fp rest f fvar n hw.2 hf hv mm hm

end

/-- Both channels of `_split_f_g` keep the input's row count. -/
theorem split_f_g_length (nObj nConstr : ℕ) (y : RFMat) :
    (split_f_g nObj nConstr y).1.length = y.length ∧
    (split_f_g nObj nConstr y).2.length = y.length := by
  unfold split_f_g
  split <;> simp

/-- `predict` returns one objective row and one constraint row per query
row. -/
theorem predict_length (m : SurrModel) (normF : QRow → QRow)
    (nObj nConstr : ℕ) (x : List QRow) :
    (predict m normF nObj nConstr x).1.length = x.length ∧
    (predict m normF nObj nConstr x).2.length = x.length := by
  unfold predict
  refine ⟨?_, ?_⟩ <;> simp [(split_f_g_length nObj nConstr _).1,
    (split_f_g_length nObj nConstr _).2]

/-- `predict_variance` returns one objective row and one constraint row
per query row. -/
theorem predict_variance_length (m : SurrModel) (normF : QRow → QRow)
    (nObj nConstr : ℕ) (x : List QRow) :
    (predict_variance m normF nObj nConstr x).1.length = x.length ∧
    (predict_variance m normF nObj nConstr x).2.length = x.length := by
  unfold predict_variance
  refine ⟨?_, ?_⟩ <;> simp [(split_f_g_length nObj nConstr _).1,
    (split_f_g_length nObj nConstr _).2]

/-- Every constraint strategy emits one row per input row. -/
theorem ConstraintStrategy_evaluate_length (O : NumOracle) (c : CStrat)
    (n : ℕ) (g gvar : RFMat) (hg : g.length = n) (hv : gvar.length = n) :
    (ConstraintStrategy_evaluate O c n g gvar).length = n := by
  cases c <;>
    simp [ConstraintStrategy_evaluate, ProbabilityOfFeasibility_evaluate,
      List.length_zipWith, hg, hv]

/-! # C9 -/

/-- C9: setting the same training samples twice is the same state as
setting them once; evaluating the same query twice in sequence (the second
call running on the state mutated by the first, with the surrogate oracle
and all random-free computations unchanged) returns identical
`(f_infill, g_infill)` results; and a `k`-row query returns exactly `k`
rows in both channels (for every well-formed criterion variant). -/
theorem C9_evaluate_deterministic (O : NumOracle) (m : SurrModel)
    (normF : QRow → QRow) (s0 : InfillState) (x xt yt : List QRow)
    (hw : wfKind s0.kind = true) :
    set_samples (set_samples s0 xt yt) xt yt = set_samples s0 xt yt ∧
    (SurrogateInfill_evaluate O m normF
        (SurrogateInfill_evaluate O m normF (set_samples s0 xt yt) x).2 x).1 =
      (SurrogateInfill_evaluate O m normF (set_samples s0 xt yt) x).1 ∧
    (SurrogateInfill_evaluate O m normF (set_samples s0 xt yt) x).1.1.length =
      x.length ∧
    (SurrogateInfill_evaluate O m normF (set_samples s0 xt yt) x).1.2.length =
      x.length := by
  refine ⟨rfl, rfl, ?_, ?_⟩
  · simp only [SurrogateInfill_evaluate, ConstrainedInfill_evaluate_inner,
      set_samples]
    exact evaluate_f_length O _ _ s0.kind _ _ x.length hw
      (predict_length m normF s0.nObj s0.nConstr x).1
      (predict_variance_length m normF s0.nObj s0.nConstr x).1
  · simp only [SurrogateInfill_evaluate, ConstrainedInfill_evaluate_inner,
      set_samples]
    rcases Nat.eq_zero_or_pos s0.nConstr with h | h
    · simp only [h, if_neg (by norm_num : ¬ (0:ℕ) > 0)]
      exact (predict_length m normF s0.nObj 0 x).2
    · simp only [if_pos h]
      exact ConstraintStrategy_evaluate_length O _ _ _ _
        (predict_length m normF s0.nObj s0.nConstr x).2
        (predict_variance_length m normF s0.nObj s0.nConstr x).2

/-- A concrete surrogate-model oracle used by witnesses: one objective, no
constraints, constant predictions. -/
def testModel : SurrModel where
  predict_values := fun _ => [RF.fin 1]
  predict_variances := fun _ => [RF.fin 4]

/-- A concrete criterion state used by witnesses: an LCB criterion bound to
one objective and zero constraints. -/
def testState : InfillState where
  kind := InfillKind.lowerConfidenceBound 2
  nObj := 1
  nConstr := 0
  constraint_strategy := CStrat.meanConstraintPrediction
  x_train := []
  y_train := []
  f_pareto := []
  f_infill_log := []
  g_infill_log := []
  n_eval_infill := 0

/-- C9, witness: `C9_evaluate_deterministic` at the concrete LCB state,
model and a one-row query, discharging the well-formedness hypothesis. -/
theorem C9_evaluate_deterministic_witness :
    set_samples (set_samples testState [[0]] [[0]]) [[0]] [[0]] =
      set_samples testState [[0]] [[0]] ∧
    (SurrogateInfill_evaluate testOracle testModel id
        (SurrogateInfill_evaluate testOracle testModel id
          (set_samples testState [[0]] [[0]]) [[1]]).2 [[1]]).1 =
      (SurrogateInfill_evaluate testOracle testModel id
        (set_samples testState [[0]] [[0]]) [[1]]).1 ∧
    (SurrogateInfill_evaluate testOracle testModel id
        (set_samples testState [[0]] [[0]]) [[1]]).1.1.length = [[(1:ℚ)]].length ∧
    (SurrogateInfill_evaluate testOracle testModel id
        (set_samples testState [[0]] [[0]]) [[1]]).1.2.length = [[(1:ℚ)]].length :=
  C9_evaluate_deterministic testOracle testModel id testState [[1]] [[0]] [[0]] rfl

/-! # C10 -/

/-- C10: when the bound problem declares zero raw constraints, `_evaluate`
never consults the constraint strategy — its full result is identical for
any two configured strategies — and the returned `g_infill` has one row
per query row with zero columns. -/
theorem C10_zero_constraints (O : NumOracle) (m : SurrModel)
    (normF : QRow → QRow) (s : InfillState) (x : List QRow) (c1 c2 : CStrat)
    (h0 : s.nConstr = 0) :
    ConstrainedInfill_evaluate_inner O m normF
        { s with constraint_strategy := c1 } x =
      ConstrainedInfill_evaluate_inner O m normF
        { s with constraint_strategy := c2 } x ∧
    (ConstrainedInfill_evaluate_inner O m normF s x).2 =
      List.replicate x.length [] := by
  constructor
  · simp [ConstrainedInfill_evaluate_inner, h0]
  · simp [ConstrainedInfill_evaluate_inner, h0, predict, split_f_g,
      Function.comp_def, List.map_const']

/-- C10, witness: the concrete zero-constraint LCB state with two different
strategies, discharging the `n_constr = 0` hypothesis of
`C10_zero_constraints`. -/
theorem C10_zero_constraints_witness :
    ConstrainedInfill_evaluate_inner testOracle testModel id
        { testState with constraint_strategy := CStrat.probabilityOfFeasibility (1/2) }
        [[1]] =
      ConstrainedInfill_evaluate_inner testOracle testModel id
        { testState with constraint_strategy := CStrat.ignoreConstraints } [[1]] ∧
    (ConstrainedInfill_evaluate_inner testOracle testModel id testState [[1]]).2 =
      List.replicate [[(1:ℚ)]].length [] :=
  C10_zero_constraints testOracle testModel id testState [[1]]
    (CStrat.probabilityOfFeasibility (1/2)) CStrat.ignoreConstraints rfl

/-! ## Ensemble infill selection (`EnsembleInfill.select_infill_solutions`,
infill.py:648-672)

The population filtering (`pymoo.core.algorithm.filter_optimum` with
`least_infeasible=True`), the crowding-distance computation
(`pymoo...calc_crowding_distance` on the population's `F` values) and the
random source (`np.random.choice`) are external collaborators (spec §5-6);
they are modelled as an oracle over an abstract population-row type.  The
crowding oracle maps a population to its per-row crowding scalar. -/

/-- Oracle for the external selection utilities: `filter_optimum`
(feasibility-preferring non-dominated filtering), `calc_crowding_distance`,
`choice b t` (the `t`-th uniform draw in `[0, b)`, for
`np.random.choice(b, n)`), and `pick ties` (an element of `ties`, for
`np.random.choice(ties)`). -/
structure SelOracle (α : Type) where
  filter_optimum : List α → List α
  calc_crowding_distance : List α → List ℚ
  choice : ℕ → ℕ → ℕ
  pick : List ℕ → ℕ

/-- `np.where(crowding_of_front == np.min(crowding_of_front))[0]`
(infill.py:665-666). -/
def minCrowdIndices (cr : List ℚ) : List ℕ :=
  match cr with
  | [] => []
  | c :: rest =>
    (List.range (c :: rest).length).filter
      (fun i => (c :: rest).getD i 0 = rest.foldl min c)

/-- Removal of one population member by index (the `i_keep` boolean mask of
infill.py:669-671). -/
def removeAt {α : Type} (l : List α) (i : ℕ) : List α :=
  l.take i ++ l.drop (i + 1)

/-- One iteration of the crowding-based elimination loop
(infill.py:662-671): recompute the crowding of the current front, find the
indices of minimum crowding, remove one of them (a random choice among
ties, the single index otherwise). -/
def eliminate_step {α : Type} (Or : SelOracle α) (pop : List α) : List α :=
  let cr := Or.calc_crowding_distance pop
  let ties := minCrowdIndices cr
  let iRemove := if ties.length > 1 then Or.pick ties else ties.headD 0
  removeAt pop iRemove

/-- `for _ in range(len(opt_pop)-n_infill): ...` (infill.py:662). -/
def eliminate_loop {α : Type} (Or : SelOracle α) : ℕ → List α → List α
  | 0, p => p
  | n + 1, p => eliminate_loop Or n (eliminate_step Or p)

/-- `EnsembleInfill.select_infill_solutions` (infill.py:648-672): take the
feasibility-preferring optimum of the population; return it whole when it
has at most `n_infill` members; sample `n_infill` uniform draws from it
when `n_infill ≤ n_f_ic` (the ensemble's declared acquisition-objective
count); otherwise eliminate minimum-crowding members one at a time until
`n_infill` remain. -/
def EnsembleInfill_select_infill_solutions {α : Type} [Inhabited α]
    (Or : SelOracle α) (nFIc : ℕ) (population : List α) (nInfill : ℕ) :
    List α :=
  let optPop := Or.filter_optimum population
  if optPop.length ≤ nInfill then optPop
  else if nInfill ≤ nFIc then
    (List.range nInfill).map
      (fun t => optPop.getD (Or.choice optPop.length t) default)
  else eliminate_loop Or (optPop.length - nInfill) optPop

/-- The left fold of `min` over a list either returns the start value or a
member of the list. -/
theorem foldl_min_mem (c : ℚ) (rest : List ℚ) :
    rest.foldl min c = c ∨ rest.foldl min c ∈ rest := by
  induction rest generalizing c with
  | nil => exact Or.inl rfl
  | cons b bs ih =>
    rcases ih (min c b) with h | h
    · rcases min_choice c b with hm | hm
      · rw [List.foldl_cons, h, hm]
        exact Or.inl rfl
      · rw [List.foldl_cons, h, hm]
        exact Or.inr (List.mem_cons_self b bs)
    · exact Or.inr (List.mem_cons_of_mem b h)

/-- The set of minimum-crowding indices of a non-empty crowding list is
non-empty. -/
theorem minCrowdIndices_ne_nil (cr : List ℚ) (h : cr ≠ []) :
    minCrowdIndices cr ≠ [] := by
  cases cr with
  | nil => exact absurd rfl h
  | cons c rest =>
    have hmem : rest.foldl min c ∈ c :: rest := by
      rcases foldl_min_mem c rest with hm | hm
      · rw [hm]; exact List.mem_cons_self c rest
      · exact List.mem_cons_of_mem c hm
    obtain ⟨i, hi, hval⟩ := List.mem_iff_getElem.mp hmem
    have : i ∈ minCrowdIndices (c :: rest) := by
      unfold minCrowdIndices
      refine List.mem_filter.mpr ⟨List.mem_range.mpr hi, ?_⟩
      rw [List.getD_eq_getElem _ _ hi, hval]
      simp
    intro hnil
    rw [hnil] at this
    exact absurd this (List.not_mem_nil i)

/-- Every minimum-crowding index is a valid index of the crowding list. -/
theorem minCrowdIndices_lt (cr : List ℚ) :
    ∀ i ∈ minCrowdIndices cr, i < cr.length := by
  cases cr with
  | nil => intro i hi; simp [minCrowdIndices] at hi
  | cons c rest =>
    intro i hi
    unfold minCrowdIndices at hi
    exact List.mem_range.mp (List.mem_filter.mp hi).1

/-- Removing a valid index shortens a list by one. -/
theorem removeAt_length {α : Type} (l : List α) (i : ℕ) (h : i < l.length) :
    (removeAt l i).length = l.length - 1 := by
  unfold removeAt
  rw [List.length_append, List.length_take, List.length_drop]
  omega

/-- Removal keeps only members of the original list. -/
theorem removeAt_subset {α : Type} (l : List α) (i : ℕ) :
    ∀ y ∈ removeAt l i, y ∈ l := by
  intro y hy
  unfold removeAt at hy
  rcases List.mem_append.mp hy with hy | hy
  · exact List.take_subset i l hy
  · exact List.drop_subset (i + 1) l hy

/-- One elimination step removes exactly one member of a non-empty
population (given that the crowding oracle is length-preserving and the
tie-break oracle picks among the ties). -/
theorem eliminate_step_length {α : Type} (Or : SelOracle α)
    (hcr : ∀ q : List α, (Or.calc_crowding_distance q).length = q.length)
    (hpick : ∀ ties : List ℕ, ties ≠ [] → Or.pick ties ∈ ties)
    (pop : List α) (h : pop ≠ []) :
    (eliminate_step Or pop).length = pop.length - 1 := by
  unfold eliminate_step
  have hcrne : Or.calc_crowding_distance pop ≠ [] := by
    intro hnil
    have := hcr pop
    rw [hnil] at this
    cases pop with
    | nil => exact absurd rfl h
    | cons a l => simp at this
  have htne := minCrowdIndices_ne_nil _ hcrne
  set ties := minCrowdIndices (Or.calc_crowding_distance pop) with hties
  have hin : (if ties.length > 1 then Or.pick ties else ties.headD 0) ∈ ties := by
    split
    · exact hpick ties htne
    · cases hT : ties with
      | nil => exact absurd hT htne
      | cons t ts => simp
  have hlt : (if ties.length > 1 then Or.pick ties else ties.headD 0) < pop.length := by
    have := minCrowdIndices_lt (Or.calc_crowding_distance pop) _ hin
    rwa [hcr pop] at this
  exact removeAt_length pop _ hlt

/-- The elimination loop removes exactly `n` members when at most the
population size. -/
theorem eliminate_loop_length {α : Type} (Or : SelOracle α)
    (hcr : ∀ q : List α, (Or.calc_crowding_distance q).length = q.length)
    (hpick : ∀ ties : List ℕ, ties ≠ [] → Or.pick ties ∈ ties) :
    ∀ (n : ℕ) (pop : List α), n ≤ pop.length →
      (eliminate_loop Or n pop).length = pop.length - n := by
  intro n
  induction n with
  | zero => intro pop _; simp [eliminate_loop]
  | succ k ih =>
    intro pop hn
    have hne : pop ≠ [] := by
      intro hnil
      rw [hnil] at hn
      simp at hn
    have hstep := eliminate_step_length Or hcr hpick pop hne
    have hk : k ≤ (eliminate_step Or pop).length := by omega
    rw [eliminate_loop, ih _ hk, hstep]
    omega

/-- The elimination loop keeps only members of the original population. -/
theorem eliminate_loop_subset {α : Type} (Or : SelOracle α) :
    ∀ (n : ℕ) (pop : List α), ∀ y ∈ eliminate_loop Or n pop, y ∈ pop := by
  intro n
  induction n with
  | zero => intro pop y hy; simpa [eliminate_loop] using hy
  | succ k ih =>
    intro pop y hy
    rw [eliminate_loop] at hy
    exact removeAt_subset pop _ _ (ih (eliminate_step Or pop) y hy)

/-! # C5 -/

/-- C5: `EnsembleInfill.select_infill_solutions` takes the
feasibility-preferring non-dominated set of the candidate population (the
external `filter_optimum`); returns it whole when it has at most `n_infill`
members; when `n_infill` is at or below the ensemble's declared objective
count, returns `n_infill` members drawn uniformly at random from the front
(draws with replacement, exactly `n_infill` rows, all members of the
front); otherwise repeatedly removes one minimum-crowding-distance point at
a time (random choice among ties) until exactly `n_infill` points remain —
again members of the front.  Stated for every length-preserving crowding
oracle, every tie-break pick among the ties, and every in-range random
source. -/
theorem C5_ensemble_select {α : Type} [Inhabited α] (Or : SelOracle α)
    (nFIc : ℕ) (population : List α) (nInfill : ℕ)
    (hcr : ∀ q : List α, (Or.calc_crowding_distance q).length = q.length)
    (hpick : ∀ ties : List ℕ, ties ≠ [] → Or.pick ties ∈ ties)
    (hchoice : ∀ b t : ℕ, 0 < b → Or.choice b t < b) :
    ((Or.filter_optimum population).length ≤ nInfill →
      EnsembleInfill_select_infill_solutions Or nFIc population nInfill =
        Or.filter_optimum population) ∧
    (nInfill < (Or.filter_optimum population).length → nInfill ≤ nFIc →
      EnsembleInfill_select_infill_solutions Or nFIc population nInfill =
        (List.range nInfill).map (fun t =>
          (Or.filter_optimum population).getD
            (Or.choice (Or.filter_optimum population).length t) default) ∧
      (EnsembleInfill_select_infill_solutions Or nFIc population nInfill).length =
        nInfill ∧
      ∀ y ∈ EnsembleInfill_select_infill_solutions Or nFIc population nInfill,
        y ∈ Or.filter_optimum population) ∧
    (nInfill < (Or.filter_optimum population).length → nFIc < nInfill →
      EnsembleInfill_select_infill_solutions Or nFIc population nInfill =
        eliminate_loop Or ((Or.filter_optimum population).length - nInfill)
          (Or.filter_optimum population) ∧
      (EnsembleInfill_select_infill_solutions Or nFIc population nInfill).length =
        nInfill ∧
      ∀ y ∈ EnsembleInfill_select_infill_solutions Or nFIc population nInfill,
        y ∈ Or.filter_optimum population) := by
  refine ⟨fun h => ?_, fun h1 h2 => ?_, fun h1 h2 => ?_⟩
  · simp [EnsembleInfill_select_infill_solutions, h]
  · have hsel : EnsembleInfill_select_infill_solutions Or nFIc population nInfill =
        (List.range nInfill).map (fun t =>
          (Or.filter_optimum population).getD
            (Or.choice (Or.filter_optimum population).length t) default) := by
      simp [EnsembleInfill_select_infill_solutions, Nat.not_le.mpr h1, h2]
    refine ⟨hsel, ?_, ?_⟩
    · rw [hsel]; simp
    · intro y hy
      rw [hsel] at hy
      obtain ⟨t, _, hval⟩ := List.mem_map.mp hy
      have hpos : 0 < (Or.filter_optimum population).length := by omega
      have hlt := hchoice (Or.filter_optimum population).length t hpos
      rw [← hval, List.getD_eq_getElem _ _ hlt]
      exact List.getElem_mem _
  · have hsel : EnsembleInfill_select_infill_solutions Or nFIc population nInfill =
        eliminate_loop Or ((Or.filter_optimum population).length - nInfill)
          (Or.filter_optimum population) := by
      simp [EnsembleInfill_select_infill_solutions, Nat.not_le.mpr h1,
        Nat.not_le.mpr h2]
    refine ⟨hsel, ?_, ?_⟩
    · rw [hsel, eliminate_loop_length Or hcr hpick _ _ (by omega)]
      omega
    · intro y hy
      rw [hsel] at hy
      exact eliminate_loop_subset Or _ _ y hy

/-- A concrete selection oracle for the C5 witness. -/
def testSelOracle : SelOracle ℚ where
  filter_optimum := fun l => l
  calc_crowding_distance := fun l => List.replicate l.length 1
  choice := fun _ _ => 0
  pick := fun ties => ties.headD 0

/-- C5, witness: the crowding-elimination branch of `C5_ensemble_select` at
the population `[1,2,3,4]` with `n_f_ic = 1` and `n_infill = 2`,
discharging every oracle hypothesis and both branch conditions. -/
theorem C5_ensemble_select_witness :
    EnsembleInfill_select_infill_solutions testSelOracle 1 [(1:ℚ),2,3,4] 2 =
      eliminate_loop testSelOracle
        ((testSelOracle.filter_optimum [(1:ℚ),2,3,4]).length - 2)
        (testSelOracle.filter_optimum [(1:ℚ),2,3,4]) ∧
    (EnsembleInfill_select_infill_solutions testSelOracle 1 [(1:ℚ),2,3,4] 2).length =
      2 ∧
    ∀ y ∈ EnsembleInfill_select_infill_solutions testSelOracle 1 [(1:ℚ),2,3,4] 2,
      y ∈ testSelOracle.filter_optimum [(1:ℚ),2,3,4] :=
  (C5_ensemble_select testSelOracle 1 [(1:ℚ),2,3,4] 2
      (fun q => by simp [testSelOracle])
      (fun ties ht => by
        cases hT : ties with
        | nil => exact absurd hT ht
        | cons t ts => simp [testSelOracle])
      (fun b t hb => by simpa [testSelOracle] using hb)).2.2
    (by simp [testSelOracle]) (by norm_num)
